import Mathlib

/-!
Shallow embedding of `misc/efi-stub/container.c` (Slim Bootloader container
support for the ACRN efi-stub) and proofs about the claims of the
specification.  Physical memory is modelled as a byte map `Nat → Nat`,
machine integers as `Nat` with explicit reduction modulo `2^32`/`2^64`
where C unsigned arithmetic can wrap, and the firmware collaborators
(`allocate_pool`, `emalloc_*`, `get_pe_section`) as oracle parameters.
-/

/-- Byte-addressed memory. -/
def Mem : Type := Nat → Nat

/-- C `memcpy(dst, src + srcoff, n)` over byte maps. -/
def memcpy (mem : Mem) (dst : Nat) (src : Nat → Nat) (srcoff n : Nat) : Mem :=
  fun a => if dst ≤ a ∧ a < dst + n then src (srcoff + (a - dst)) else mem a

/-- C `memset(dst, v, n)` over byte maps. -/
def memset (mem : Mem) (dst v n : Nat) : Mem :=
  fun a => if dst ≤ a ∧ a < dst + n then v else mem a

/-- `ALIGN_UP(x, a)` for the power-of-two alignments used by the stub. -/
def alignUp (x a : Nat) : Nat := ((x + a - 1) / a) * a

/-- 32-bit unsigned subtraction (wrap-around as in C `UINT32` arithmetic). -/
def u32sub (a b : Nat) : Nat := (a + (4294967296 - b % 4294967296)) % 4294967296

/-- 32-bit unsigned addition. -/
def u32add (a b : Nat) : Nat := (a + b) % 4294967296

/-- 64-bit unsigned subtraction (EFI_PHYSICAL_ADDRESS / UINTN arithmetic). -/
def u64sub (a b : Nat) : Nat :=
  (a + (18446744073709551616 - b % 18446744073709551616)) % 18446744073709551616

/-- 64-bit unsigned addition. -/
def u64add (a b : Nat) : Nat := (a + b) % 18446744073709551616

/-- Little-endian 32-bit read from a byte map. -/
def readU32 (buf : Nat → Nat) (p : Nat) : Nat :=
  buf p % 256 + 256 * (buf (p + 1) % 256) + 65536 * (buf (p + 2) % 256) +
    16777216 * (buf (p + 3) % 256)

/-- `StrnLen(s, maxlen)`: index of the first NUL, capped at `maxlen`. -/
def strnLen (f : Nat → Nat) (maxlen : Nat) : Nat :=
  (((List.range maxlen).find? (fun i => f i == 0)).getD maxlen)

def EFI_PAGE_SIZE : Nat := 4096
def PT_LOAD : Nat := 1
def MULTIBOOT_SEARCH : Nat := 8192
def MULTIBOOT_HEADER_ALIGN : Nat := 4
def MULTIBOOT_HEADER_MAGIC : Nat := 0x1BADB002
def MULTIBOOT2_SEARCH : Nat := 32768
def MULTIBOOT2_HEADER_ALIGN : Nat := 8
def MULTIBOOT2_HEADER_MAGIC : Nat := 0xE85250D6
def MULTIBOOT2_ARCHITECTURE_I386 : Nat := 0
def MULTIBOOT2_TAG_TYPE_CMDLINE : Nat := 1
def MULTIBOOT2_TAG_TYPE_MODULE : Nat := 3

/-- `sizeof(struct multiboot2_tag_string)`: u32 type + u32 size. -/
def MB2_TAG_STRING_HDR : Nat := 8

/-- `sizeof(struct multiboot2_tag_module)`: u32 type, size, mod_start, mod_end. -/
def MB2_TAG_MODULE_HDR : Nat := 16

/-- EFI status codes returned by the container loader. -/
inductive EfiErr where
  | outOfResources
  | invalidParameter
  | loadError
  | notFound
deriving DecidableEq, Repr

/-- `struct multiboot2_header_tag_relocatable` (fields the loader reads). -/
structure RelocInfo where
  min_addr : Nat
  max_addr : Nat
  align : Nat
  preference : Nat
deriving DecidableEq, Repr

/-- `struct multiboot2_header_tag_address` (fields the loader reads). -/
structure LAddrInfo where
  header_addr : Nat
  load_addr : Nat
  load_end_addr : Nat
  bss_end_addr : Nat
deriving DecidableEq, Repr

/-- `LOADER_COMPRESSED_HEADER`: one embedded file record; `Data` is the
inline payload viewed as a byte map. -/
structure LZH where
  Signature : Nat
  CompressedSize : Nat
  Size : Nat
  Version : Nat
  Svn : Nat
  Attribute : Nat
  Data : Nat → Nat

instance : Inhabited LZH :=
  ⟨{ Signature := 0, CompressedSize := 0, Size := 0, Version := 0, Svn := 0,
     Attribute := 0, Data := fun _ => 0 }⟩

/-- `CONTAINER_HDR`. -/
structure ContainerHdr where
  Signature : Nat
  Version : Nat
  Svn : Nat
  DataOffset : Nat
  DataSize : Nat
  AuthType : Nat
  ImageType : Nat
  Flags : Nat
  Count : Nat
deriving DecidableEq, Repr

/-- `COMPONENT_ENTRY` (fixed prefix; the trailing hash bytes are skipped by
the walk using `HashSize`). -/
structure CompEntry where
  Name : Nat
  Offset : Nat
  Size : Nat
  Attribute : Nat
  Alignment : Nat
  AuthType : Nat
  HashSize : Nat
deriving DecidableEq, Repr

/-- `sizeof(COMPONENT_ENTRY)` (the fixed prefix, `HashData[0]` excluded). -/
def COMPONENT_ENTRY_SIZE : Nat := 16

/-- `sizeof(CONTAINER_HDR)`. -/
def CONTAINER_HDR_SIZE : Nat := 16

/-- `struct container`: the loader's aggregate state.  `lzh_ptr` caches the
embedded-file records the walked pointers refer to. -/
structure Container where
  mb_version : Nat
  options : Option (Nat → Nat)
  options_size : Nat
  boot_cmdsize : Nat
  hv_hpa : Nat
  mod_hpa : Nat
  hv_entry : Nat
  reloc : Option RelocInfo
  laddr : Option LAddrInfo
  mod_count : Nat
  total_modsize : Nat
  total_modcmdsize : Nat
  lzh_count : Nat
  lzh_ptr : List LZH

/-- The zero-initialized container produced by `memset` in `container_init`. -/
def zeroContainer : Container :=
  { mb_version := 0, options := none, options_size := 0, boot_cmdsize := 0,
    hv_hpa := 0, mod_hpa := 0, hv_entry := 0, reloc := none, laddr := none,
    mod_count := 0, total_modsize := 0, total_modcmdsize := 0,
    lzh_count := 0, lzh_ptr := [] }

instance : Inhabited Container := ⟨zeroContainer⟩

/-- A memory request issued to the firmware allocator: either
`emalloc_fixed_addr(size, addr)` or
`emalloc_reserved_aligned(size, align, min, max)`. -/
inductive AllocReq where
  | fixed : Nat → Nat → AllocReq
  | reserved : Nat → Nat → Nat → Nat → AllocReq
deriving DecidableEq, Repr

/-- Decoded multiboot2 header tag (the `switch` cases of `parse_mb2header`). -/
inductive MB2Tag where
  | infoRequest
  | address : LAddrInfo → MB2Tag
  | entryAddress : Nat → MB2Tag
  | relocatable : RelocInfo → MB2Tag
  | unknown : Nat → MB2Tag
deriving DecidableEq, Repr

/-- `struct multiboot2_tag_string` (caller-supplied buffer; `string` is the
flexible byte array). -/
structure MB2TagString where
  type : Nat
  size : Nat
  string : Nat → Nat

/-- `struct multiboot2_tag_module` (caller-supplied buffer). -/
structure MB2TagModule where
  type : Nat
  size : Nat
  mod_start : Nat
  mod_end : Nat
  cmdline : Nat → Nat

/-- Resources acquired/released through the firmware allocator:
the aggregate `struct container`, the `lzh_ptr` index list, and the
module memory region. -/
inductive Res where
  | ctrRec
  | lzhList
  | modRegion
deriving DecidableEq, Repr

/-- Allocator-accounting event. -/
inductive AllocEvent where
  | alloc : Res → AllocEvent
  | free : Res → AllocEvent
deriving DecidableEq, Repr

/-! ## ELF segment loading (`load_acrn_elf`) -/

/-- One `Elf32_Phdr` entry (the fields `load_acrn_elf` reads). -/
structure Phdr where
  p_type : Nat
  p_offset : Nat
  p_paddr : Nat
  p_filesz : Nat
  p_memsz : Nat
deriving DecidableEq, Repr

/-- The allocation request issued at the head of `load_acrn_elf`:
`emalloc_reserved_aligned` when a relocatable tag was parsed, otherwise
`emalloc_fixed_addr` at the declared load-range start. -/
def elfAllocReq (hv_ram_size hv_ram_start : Nat) (reloc : Option RelocInfo) : AllocReq :=
  match reloc with
  | some r => .reserved hv_ram_size r.align r.min_addr r.max_addr
  | none => .fixed hv_ram_size hv_ram_start

/-- The program-header loop of `load_acrn_elf`: skip entries that are not
`PT_LOAD` or have zero `p_memsz` or zero `p_offset`; reject `p_filesz >
p_memsz`; copy `p_filesz` bytes from the file offset to
`base + (p_paddr - hv_ram_start)` (UINT32 arithmetic) and zero-fill the
tail up to `p_memsz`. -/
def load_segments (img : Nat → Nat) (base rs : Nat) : List Phdr → Mem → Except Unit Mem
  | [], mem => .ok mem
  | ph :: rest, mem =>
    if ph.p_type ≠ PT_LOAD ∨ ph.p_memsz = 0 ∨ ph.p_offset = 0 then
      load_segments img base rs rest mem
    else if ph.p_memsz < ph.p_filesz then
      .error ()
    else
      let mem1 := memcpy mem (base + u32sub ph.p_paddr rs) img ph.p_offset ph.p_filesz
      let mem2 :=
        if ph.p_filesz < ph.p_memsz then
          memset mem1 (base + u32add (u32sub ph.p_paddr rs) ph.p_filesz) 0
            (ph.p_memsz - ph.p_filesz)
        else mem1
      load_segments img base rs rest mem2

/-- `load_acrn_elf`: allocate the hypervisor region (fixed or relocatable),
then run the segment loop.  `phdrs` is the decoded program-header table
(the reinterpretation of `elf_image + e_phoff` with `e_phnum` entries);
`alloc` abstracts the firmware allocator and returns the placed base. -/
def load_acrn_elf (alloc : AllocReq → Option Nat) (img : Nat → Nat) (phdrs : List Phdr)
    (hv_ram_start hv_ram_size : Nat) (reloc : Option RelocInfo) (mem : Mem) :
    Except EfiErr (Nat × Mem) :=
  match alloc (elfAllocReq hv_ram_size hv_ram_start reloc) with
  | none => .error .outOfResources
  | some base =>
    match load_segments img base hv_ram_start phdrs mem with
    | .error _ => .error .loadError
    | .ok mem2 => .ok (base, mem2)

/-! ## Multiboot header discovery and parsing -/

/-- Candidate probe positions of the signature scanners: `0, step, 2*step, …`
while the candidate still lies 12 bytes inside the window. -/
def scanPositions (len step : Nat) : List Nat :=
  List.range' 0 ((len - 12) / step + 1) step

/-- Acceptance condition of `find_mb2header` on the four header fields:
magic, required architecture, and the 32-bit modular checksum. -/
def mb2_accept (magic arch hlen cksum : Nat) : Bool :=
  (magic == MULTIBOOT2_HEADER_MAGIC) &&
  ((magic + arch + hlen + cksum) % 4294967296 == 0) &&
  (arch == MULTIBOOT2_ARCHITECTURE_I386)

/-- `find_mb2header`'s test at one candidate position. -/
def mb2_acceptAt (buf : Nat → Nat) (p : Nat) : Bool :=
  mb2_accept (readU32 buf p) (readU32 buf (p + 4)) (readU32 buf (p + 8))
    (readU32 buf (p + 12))

/-- `find_mb2header`: scan the window stepping by
`MULTIBOOT2_HEADER_ALIGN / 4` bytes, returning the first accepted
position. -/
def find_mb2header (buf : Nat → Nat) (len : Nat) : Option Nat :=
  (scanPositions len (MULTIBOOT2_HEADER_ALIGN / 4)).find? (mb2_acceptAt buf)

/-- `find_mb1header`'s test at one candidate position: magic plus the
three-field modular checksum. -/
def mb1_acceptAt (buf : Nat → Nat) (p : Nat) : Bool :=
  (readU32 buf p == MULTIBOOT_HEADER_MAGIC) &&
  ((readU32 buf p + readU32 buf (p + 4) + readU32 buf (p + 8)) % 4294967296 == 0)

/-- `find_mb1header`: scan the window stepping by `MULTIBOOT_HEADER_ALIGN`. -/
def find_mb1header (buf : Nat → Nat) (len : Nat) : Option Nat :=
  (scanPositions len MULTIBOOT_HEADER_ALIGN).find? (mb1_acceptAt buf)

/-- `parse_mb1header`: validates nothing further and extracts nothing. -/
def parse_mb1header (ctr : Container) : Option Container := some ctr

/-- The tag-walk loop of `parse_mb2header` over the decoded tag list (the
list ends where the END tag sits); an unsupported tag type aborts with an
error (`none`). -/
def parse_mb2tags (ctr : Container) : List MB2Tag → Option Container
  | [] => some ctr
  | t :: rest =>
    match t with
    | .infoRequest => parse_mb2tags ctr rest
    | .address l => parse_mb2tags { ctr with laddr := some l } rest
    | .entryAddress e => parse_mb2tags { ctr with hv_entry := e } rest
    | .relocatable r => parse_mb2tags { ctr with reloc := some r } rest
    | .unknown _ => none

/-- `parse_mb2header`: walk the tags, then reject when a load-address tag
was seen while the entry address is still zero
(`if (ctr->laddr && ctr->hv_entry == 0x0) return -1`). -/
def parse_mb2header (tags : List MB2Tag) (ctr : Container) : Option Container :=
  match parse_mb2tags ctr tags with
  | none => none
  | some c => if c.laddr.isSome = true ∧ c.hv_entry = 0 then none else some c

/-! ## `container_load_boot_image` -/

/-- `StrnLen(ctr->options, ctr->options_size)` with a NULL-tolerant reading
(a NULL options pointer comes with size 0). -/
def optStrnLen (o : Option (Nat → Nat)) (maxlen : Nat) : Nat :=
  match o with
  | none => 0
  | some f => strnLen f maxlen

/-- The ELF-loading tail of `container_load_boot_image`: it reads
`ctr->laddr->load_addr` and `ctr->laddr->load_end_addr` unconditionally,
so a missing parsed load-address tag is a NULL-pointer dereference,
modelled as the undefined result `none`.  On success the relocation
fix-up adjusts the stored entry address. -/
def loadElfStage (alloc : AllocReq → Option Nat) (decodePhdrs : (Nat → Nat) → List Phdr)
    (ctr : Container) (mem : Mem) : Option (Except EfiErr (Container × Mem)) :=
  let lzh := ctr.lzh_ptr.getD 1 default
  match ctr.laddr with
  | none => none
  | some l =>
    match load_acrn_elf alloc lzh.Data (decodePhdrs lzh.Data) l.load_addr
        (u32sub l.load_end_addr l.load_addr) ctr.reloc mem with
    | .error e => some (.error e)
    | .ok (hpa, mem2) =>
      let c := { ctr with hv_hpa := hpa }
      match c.reloc with
      | some _ =>
        some (.ok ({ c with hv_entry := u64add c.hv_entry (u64sub c.hv_hpa l.load_addr) }, mem2))
      | none => some (.ok (c, mem2))

/-- `container_load_boot_image`: compute `boot_cmdsize`, search the record
at `lzh_ptr[LZH_BOOT_CMD]` for a multiboot2 then multiboot1 header,
parse it, then load the ELF at `lzh_ptr[LZH_BOOT_IMG]`.  `decodeTags`
stands for the reinterpretation of the bytes after the found multiboot2
header as its tag list; `decodePhdrs` for the ELF program-header table
reinterpretation. -/
def container_load_boot_image (alloc : AllocReq → Option Nat)
    (decodeTags : Nat → List MB2Tag) (decodePhdrs : (Nat → Nat) → List Phdr)
    (ctr : Container) (mem : Mem) : Option (Except EfiErr (Container × Mem)) :=
  let lzh := ctr.lzh_ptr.getD 0 default
  let ctr1 := { ctr with boot_cmdsize := lzh.Size + optStrnLen ctr.options ctr.options_size }
  match find_mb2header lzh.Data MULTIBOOT2_SEARCH with
  | some p =>
    match parse_mb2header (decodeTags p) ctr1 with
    | none => some (.error .invalidParameter)
    | some c2 => loadElfStage alloc decodePhdrs { c2 with mb_version := 2 } mem
  | none =>
    match find_mb1header lzh.Data MULTIBOOT_SEARCH with
    | none => some (.error .invalidParameter)
    | some _ =>
      match parse_mb1header { ctr1 with mb_version := 1 } with
      | none => some (.error .invalidParameter)
      | some c2 => loadElfStage alloc decodePhdrs c2 mem

/-! ## `container_load_modules` -/

/-- The sizing scan of `container_load_modules`: indices
`LZH_MOD0_CMD .. lzh_count - 2`; even indices accumulate command sizes,
odd indices accumulate page-aligned module sizes. -/
def scanMods (lzh : List LZH) (count : Nat) : Nat × Nat :=
  (List.range' 2 (count - 1 - 2)).foldl
    (fun acc i =>
      if i % 2 = 0 then (acc.1 + (lzh.getD i default).Size, acc.2)
      else (acc.1, acc.2 + alignUp (lzh.getD i default).Size EFI_PAGE_SIZE))
    (0, 0)

/-- The sizing stage of `container_load_modules`: accumulate the two
aggregate sizes and derive `mod_count = (lzh_count - 3) / 2`. -/
def mod_sizing (ctr : Container) : Container :=
  let s := scanMods ctr.lzh_ptr ctr.lzh_count
  { ctr with
    total_modcmdsize := ctr.total_modcmdsize + s.1,
    total_modsize := ctr.total_modsize + s.2,
    mod_count := (ctr.lzh_count - 3) / 2 }

/-- The module-region allocation request of `container_load_modules`:
relocatable containers ask for a page-aligned reserved range inside the
relocation bounds sized `total_modsize`; otherwise a fixed-address request
at `hv_hpa + ALIGN_UP(hv_ram_size, EFI_PAGE_SIZE)` sized `hv_ram_size`,
where `hv_ram_size = laddr->load_end_addr - laddr->load_addr` (a NULL
`laddr` dereference is the undefined result `none`). -/
def modAllocReq (ctr : Container) : Option AllocReq :=
  match ctr.reloc with
  | some r => some (.reserved ctr.total_modsize EFI_PAGE_SIZE r.min_addr r.max_addr)
  | none =>
    match ctr.laddr with
    | none => none
    | some l =>
      let hv_ram_size := u32sub l.load_end_addr l.load_addr
      some (.fixed hv_ram_size (ctr.hv_hpa + alignUp hv_ram_size EFI_PAGE_SIZE))

/-- The copy loop of `container_load_modules`: module binaries sit at odd
indices `3, 5, …, lzh_count - 2`; each is copied to the running cursor,
which then advances by the page-aligned module size. -/
def copyModules (lzh : List LZH) (count mod_hpa : Nat) (mem : Mem) : Mem :=
  ((List.range' 3 ((count - 3) / 2) 2).foldl
    (fun (acc : Nat × Mem) i =>
      let l := lzh.getD i default
      (acc.1 + alignUp l.Size EFI_PAGE_SIZE, memcpy acc.2 acc.1 l.Data 0 l.Size))
    (mod_hpa, mem)).2

/-- `container_load_modules`: size the module set, allocate one region,
and pack the module binaries into it. -/
def container_load_modules (alloc : AllocReq → Option Nat) (ctr : Container) (mem : Mem) :
    Option (Except EfiErr (Container × Mem)) :=
  let c := mod_sizing ctr
  match modAllocReq c with
  | none => none
  | some req =>
    match alloc req with
    | none => some (.error .outOfResources)
    | some a =>
      let c2 := { c with mod_hpa := a }
      some (.ok (c2, copyModules c2.lzh_ptr c2.lzh_count c2.mod_hpa mem))

/-! ## Getters and tag writers -/

/-- `container_get_boot_cmdsize`. -/
def container_get_boot_cmdsize (ctr : Container) : Nat := ctr.boot_cmdsize

/-- `container_get_mod_count`. -/
def container_get_mod_count (ctr : Container) : Nat := ctr.mod_count

/-- `container_get_total_modsize`. -/
def container_get_total_modsize (ctr : Container) : Nat := ctr.total_modsize

/-- `container_fill_bootcmd_tag`: zero the string area, copy the embedded
command line minus its terminator, and when boot options are present
overwrite the terminator position with a space and append the option
characters. -/
def container_fill_bootcmd_tag (ctr : Container) (tag : MB2TagString) : MB2TagString :=
  let lzh := ctr.lzh_ptr.getD 0 default
  let cmdline_size := container_get_boot_cmdsize ctr
  let s0 := memset tag.string 0 0 cmdline_size
  let s1 := memcpy s0 0 lzh.Data 0 (lzh.Size - 1)
  let s2 :=
    match ctr.options with
    | none => s1
    | some opts =>
      let s1b := fun a => if a = lzh.Size - 1 then 32 else s1 a
      memcpy s1b lzh.Size opts 0 (cmdline_size - lzh.Size)
  { type := MULTIBOOT2_TAG_TYPE_CMDLINE, size := MB2_TAG_STRING_HDR + cmdline_size,
    string := s2 }

/-- The pair-walk loop of `container_fill_module_tag`: visit command
indices `2, 4, …` below `lzh_count - 1`, accumulate the page-aligned sizes
of the passed binaries, and fill the tag when the requested pair is
reached; otherwise the caller's buffer is returned untouched. -/
def fillModLoop (ctr : Container) (tag : MB2TagModule) (index : Nat) :
    List Nat → Nat → MB2TagModule
  | [], _ => tag
  | i :: rest, p =>
    let mod_lzh := ctr.lzh_ptr.getD (i + 1) default
    if i = index * 2 + 2 then
      let cmd_lzh := ctr.lzh_ptr.getD i default
      { type := MULTIBOOT2_TAG_TYPE_MODULE,
        size := MB2_TAG_MODULE_HDR + cmd_lzh.Size,
        mod_start := p,
        mod_end := p + mod_lzh.Size,
        cmdline := memcpy tag.cmdline 0 cmd_lzh.Data 0 cmd_lzh.Size }
    else
      fillModLoop ctr tag index rest (p + alignUp mod_lzh.Size EFI_PAGE_SIZE)

/-- `container_fill_module_tag`. -/
def container_fill_module_tag (ctr : Container) (tag : MB2TagModule) (index : Nat) :
    MB2TagModule :=
  fillModLoop ctr tag index (List.range' 2 ((ctr.lzh_count - 2) / 2) 2) ctr.mod_hpa

/-! ## Lifecycle: `container_init` and `container_deinit` -/

/-- `container_deinit` as allocator accounting: it frees the index list and
the aggregate record only when `lzh_ptr` is non-NULL, and independently
frees the module region when `mod_hpa` is non-zero. -/
def container_deinit_events (lzhNonnull : Bool) (mod_hpa : Nat) : List AllocEvent :=
  (if lzhNonnull then [.free .lzhList, .free .ctrRec] else []) ++
  (if mod_hpa ≠ 0 then [.free .modRegion] else [])

/-- Environment of `container_init`: outcomes of the pool allocator and of
`get_pe_section`, plus typed views of the host image memory (`hdrAt`,
`descAt`, `lzhAt` stand for the C pointer reinterpretations at the given
absolute addresses). -/
structure InitEnv where
  ctrAllocOk : Bool
  lzhAllocOk : Bool
  imageBase : Nat
  sectionInfo : Option (Nat × Nat)
  hdrAt : Nat → ContainerHdr
  descAt : Nat → CompEntry
  lzhAt : Nat → LZH
  loadOptions : Option (Nat → Nat)
  loadOptionsSize : Nat

/-- Absolute address of the container header: image base plus the `.hv`
section offset. -/
def initHdrAddr (env : InitEnv) : Nat := env.imageBase + (env.sectionInfo.getD (0, 0)).1

/-- Address of the i-th component descriptor: the walk starts right after
the container header and advances by the fixed descriptor size plus the
descriptor's `HashSize`. -/
def descAddr (descAt : Nat → CompEntry) (base : Nat) : Nat → Nat
  | 0 => base
  | i + 1 =>
    descAddr descAt base i + COMPONENT_ENTRY_SIZE + (descAt (descAddr descAt base i)).HashSize

/-- The descriptor walk of `container_init`: record
`hdr + (DataOffset + comp->Offset)` for each of `n` descriptors, then step
to the next descriptor. -/
def buildIndexAux (descAt : Nat → CompEntry) (hdrAddr dataOff : Nat) :
    Nat → Nat → List Nat
  | 0, _ => []
  | n + 1, a =>
    (hdrAddr + (dataOff + (descAt a).Offset)) ::
      buildIndexAux descAt hdrAddr dataOff n (a + COMPONENT_ENTRY_SIZE + (descAt a).HashSize)

/-- The absolute file-record addresses cached in `lzh_ptr` by
`container_init`. -/
def containerIndexAddrs (env : InitEnv) : List Nat :=
  let hdrAddr := initHdrAddr env
  buildIndexAux env.descAt hdrAddr (env.hdrAt hdrAddr).DataOffset
    (env.hdrAt hdrAddr).Count (hdrAddr + CONTAINER_HDR_SIZE)

/-- `container_init` with allocator accounting: allocate and zero the
aggregate record, store the load options, locate the `.hv` section, read
the container header, allocate the index list, and walk the descriptors;
any failure runs `container_deinit` on the partially initialized state
before returning. -/
def container_init (env : InitEnv) : Except EfiErr Container × List AllocEvent :=
  if env.ctrAllocOk = false then
    (.error .outOfResources, [])
  else
    let ctr0 := { zeroContainer with
      options := env.loadOptions, options_size := env.loadOptionsSize }
    match env.sectionInfo with
    | none => (.error .notFound, [.alloc .ctrRec] ++ container_deinit_events false ctr0.mod_hpa)
    | some (secAddr, _secSize) =>
      let hdrAddr := env.imageBase + secAddr
      let hdr := env.hdrAt hdrAddr
      let ctr1 := { ctr0 with lzh_count := hdr.Count }
      if env.lzhAllocOk = false then
        (.error .outOfResources,
          [.alloc .ctrRec] ++ container_deinit_events false ctr1.mod_hpa)
      else
        let ctr2 := { ctr1 with lzh_ptr := (containerIndexAddrs env).map env.lzhAt }
        (.ok ctr2, [.alloc .ctrRec, .alloc .lzhList])

/-! ## Concrete inputs used by witnesses and counterexamples -/

/-- File record with a given `Size` (payload content irrelevant). -/
def szLZH (s : Nat) : LZH := { (default : LZH) with Size := s }

def c3tags : List MB2Tag := [MB2Tag.entryAddress 1048576]

def c3out : Container := { zeroContainer with hv_entry := 1048576 }

def c3wladdr : LAddrInfo :=
  { header_addr := 0, load_addr := 4096, load_end_addr := 8192, bss_end_addr := 0 }

def c3wtags : List MB2Tag := [MB2Tag.address c3wladdr]

def c3wout : Container := { zeroContainer with laddr := some c3wladdr }

def c1laddr : LAddrInfo :=
  { header_addr := 0, load_addr := 1048576, load_end_addr := 1052672, bss_end_addr := 0 }

/-- Non-relocatable container whose single module needs 12288 bytes while
the hypervisor load range spans 4096 bytes. -/
def c1ctr : Container :=
  { zeroContainer with
    lzh_count := 5,
    lzh_ptr := [szLZH 30, szLZH 2000, szLZH 10, szLZH 8448, szLZH 64],
    reloc := none, laddr := some c1laddr, hv_hpa := 1048576 }

def c5reloc : RelocInfo :=
  { min_addr := 268435456, max_addr := 4294967295, align := 4096, preference := 0 }

/-- Relocatable 9-entry container for the module-accounting witness. -/
def c5ctr : Container :=
  { zeroContainer with
    lzh_count := 9,
    lzh_ptr := [szLZH 20, szLZH 100, szLZH 10, szLZH 5000, szLZH 12, szLZH 9000,
                szLZH 8, szLZH 300, szLZH 64],
    reloc := some c5reloc }

def c5alloc : AllocReq → Option Nat := fun _ => some 268435456

def c5mem : Mem := fun _ => 0

def c5ctr2 : Container :=
  match container_load_modules c5alloc c5ctr c5mem with
  | some (.ok (c, _)) => c
  | _ => zeroContainer

def c5mem2 : Mem :=
  match container_load_modules c5alloc c5ctr c5mem with
  | some (.ok (_, m)) => m
  | _ => c5mem

/-- Four-entry (even-count) container, after the sizing stage; its
`mod_count` is `(4 - 3) / 2 = 0`. -/
def c10ctr : Container :=
  mod_sizing
    { zeroContainer with
      lzh_count := 4,
      lzh_ptr := [szLZH 30, szLZH 2000, szLZH 5, szLZH 7000],
      mod_hpa := 268435456 }

def c10tag : MB2TagModule :=
  { type := 0, size := 0, mod_start := 0, mod_end := 0, cmdline := fun _ => 0 }

/-- Valid (odd-count) 9-entry container, after the sizing stage. -/
def c10octr : Container :=
  mod_sizing
    { zeroContainer with
      lzh_count := 9,
      lzh_ptr := [szLZH 20, szLZH 100, szLZH 10, szLZH 5000, szLZH 12, szLZH 9000,
                  szLZH 8, szLZH 300, szLZH 64],
      mod_hpa := 268435456 }

/-- Embedded boot command line "ab\0" (size 3, terminator included). -/
def c8data : Nat → Nat := fun a => [97, 98, 0].getD a 0

/-- Boot option characters "qz" (length 2, no terminator within bounds). -/
def c8opts : Nat → Nat := fun a => [113, 122].getD a 0

def c8ctr : Container :=
  { zeroContainer with
    options := some c8opts, options_size := 2, boot_cmdsize := 5,
    lzh_count := 2,
    lzh_ptr := [{ (default : LZH) with Size := 3, Data := c8data }, szLZH 100] }

def c8tag : MB2TagString := { type := 0, size := 0, string := fun _ => 7 }

def zeroHdr : ContainerHdr :=
  { Signature := 0, Version := 0, Svn := 0, DataOffset := 0, DataSize := 0,
    AuthType := 0, ImageType := 0, Flags := 0, Count := 0 }

def zeroComp : CompEntry :=
  { Name := 0, Offset := 0, Size := 0, Attribute := 0, Alignment := 0,
    AuthType := 0, HashSize := 0 }

/-- Initialization environment where `get_pe_section` fails (no `.hv`
section): the aggregate record is allocated, then lost. -/
def c2env : InitEnv :=
  { ctrAllocOk := true, lzhAllocOk := true, imageBase := 4194304,
    sectionInfo := none,
    hdrAt := fun _ => zeroHdr, descAt := fun _ => zeroComp,
    lzhAt := fun _ => default, loadOptions := none, loadOptionsSize := 0 }

def c6hdr : ContainerHdr :=
  { Signature := 0, Version := 1, Svn := 0, DataOffset := 64, DataSize := 400,
    AuthType := 0, ImageType := 0, Flags := 0, Count := 2 }

def c6desc0 : CompEntry :=
  { Name := 1, Offset := 100, Size := 40, Attribute := 0, Alignment := 0,
    AuthType := 0, HashSize := 4 }

def c6desc1 : CompEntry :=
  { Name := 2, Offset := 200, Size := 60, Attribute := 0, Alignment := 0,
    AuthType := 0, HashSize := 0 }

/-- Two-component container at image base 1000, section offset 24: the
header sits at 1024, descriptor 0 at 1040, descriptor 1 at
1040 + 16 + 4 = 1060. -/
def c6env : InitEnv :=
  { ctrAllocOk := true, lzhAllocOk := true, imageBase := 1000,
    sectionInfo := some (24, 500),
    hdrAt := fun a => if a = 1024 then c6hdr else zeroHdr,
    descAt := fun a => if a = 1040 then c6desc0 else if a = 1060 then c6desc1 else zeroComp,
    lzhAt := fun a => { (default : LZH) with Signature := a },
    loadOptions := none, loadOptionsSize := 0 }

def c6ctr : Container :=
  match (container_init c6env).1 with
  | .ok c => c
  | .error _ => zeroContainer

def c6evs : List AllocEvent := (container_init c6env).2

/-- A valid multiboot1 header at offset 0 (magic 0x1BADB002, flags 0,
checksum 0xE4524FFE) and nothing else: no multiboot2 header exists in
this buffer. -/
def c9mb1bytes : List Nat := [2, 176, 173, 27, 0, 0, 0, 0, 254, 79, 82, 228]

def c9buf : Nat → Nat := fun a => c9mb1bytes.getD a 0

/-- Container whose boot-command record exposes `c9buf` and which has no
parsed load-address tag. -/
def c9ctr : Container :=
  { zeroContainer with
    lzh_count := 2,
    lzh_ptr := [{ (default : LZH) with Size := 1, Data := c9buf }, szLZH 500] }

def c9alloc : AllocReq → Option Nat := fun _ => some 1048576

def c9dt : Nat → List MB2Tag := fun _ => []

def c9dp : (Nat → Nat) → List Phdr := fun _ => []

def c9mem : Mem := fun _ => 0

/-- The segment condition under which `load_acrn_elf` loads a
program-header entry: `PT_LOAD` type, non-zero memory size, non-zero file
offset. -/
def isLoadSeg (ph : Phdr) : Prop :=
  ph.p_type = PT_LOAD ∧ ph.p_memsz ≠ 0 ∧ ph.p_offset ≠ 0

instance (ph : Phdr) : Decidable (isLoadSeg ph) := by
  unfold isLoadSeg
  infer_instance

def c4img : Nat → Nat := fun a => a % 7 + 1

def c4alloc : AllocReq → Option Nat := fun req =>
  match req with
  | .fixed _ addr => some addr
  | .reserved _ _ mn _ => some mn

def c4ph : Phdr := { p_type := 1, p_offset := 64, p_paddr := 4096, p_filesz := 3, p_memsz := 5 }

def c4mem0 : Mem := fun _ => 9

/-- The memory produced by loading `c4ph` at base 4096: three copied bytes
then two zeroed bytes. -/
def c4mem2 : Mem :=
  memset (memcpy c4mem0 (4096 + u32sub 4096 4096) c4img 64 3)
    (4096 + u32add (u32sub 4096 4096) 3) 0 (5 - 3)

/-! # Theorems -/

/-- Field-level characterization of `find_mb2header`'s acceptance test. -/
theorem mb2_accept_spec {m a h c : Nat} :
    mb2_accept m a h c = true ↔
      m = MULTIBOOT2_HEADER_MAGIC ∧ a = MULTIBOOT2_ARCHITECTURE_I386 ∧
        (m + a + h + c) % 4294967296 = 0 := by
  simp only [mb2_accept, Bool.and_eq_true, beq_iff_eq]
  tauto

/-- C7: every position accepted by `find_mb2header` passes the acceptance
test, an accepted header satisfies the magic, i386-architecture and
modular-sum checksum invariants, and corrupting any single one of the
four header fields of an otherwise-accepted header makes the scanner's
test reject it. -/
theorem C7_mb2_checksum_invariant :
    (∀ (buf : Nat → Nat) (len p : Nat),
        find_mb2header buf len = some p → mb2_acceptAt buf p = true) ∧
    (∀ m a h c : Nat, mb2_accept m a h c = true →
        m = MULTIBOOT2_HEADER_MAGIC ∧ a = MULTIBOOT2_ARCHITECTURE_I386 ∧
          (m + a + h + c) % 4294967296 = 0) ∧
    (∀ m a h c : Nat, m < 4294967296 → a < 4294967296 → h < 4294967296 →
        c < 4294967296 → mb2_accept m a h c = true →
        ∀ x : Nat, x < 4294967296 →
          (x ≠ m → mb2_accept x a h c = false) ∧
          (x ≠ a → mb2_accept m x h c = false) ∧
          (x ≠ h → mb2_accept m a x c = false) ∧
          (x ≠ c → mb2_accept m a h x = false)) := by
  refine ⟨?_, ?_, ?_⟩
  · intro buf len p hf
    exact List.find?_some hf
  · intro m a h c hacc
    exact mb2_accept_spec.mp hacc
  · intro m a h c hm ha hh hc hacc x hx
    obtain ⟨hm1, ha1, hs1⟩ := mb2_accept_spec.mp hacc
    refine ⟨?_, ?_, ?_, ?_⟩
    · intro hne
      cases hb : mb2_accept x a h c with
      | false => rfl
      | true =>
        obtain ⟨hm2, _, _⟩ := mb2_accept_spec.mp hb
        exact absurd (hm2.trans hm1.symm) hne
    · intro hne
      cases hb : mb2_accept m x h c with
      | false => rfl
      | true =>
        obtain ⟨_, ha2, _⟩ := mb2_accept_spec.mp hb
        exact absurd (ha2.trans ha1.symm) hne
    · intro hne
      cases hb : mb2_accept m a x c with
      | false => rfl
      | true =>
        obtain ⟨_, _, hs2⟩ := mb2_accept_spec.mp hb
        omega
    · intro hne
      cases hb : mb2_accept m a h x with
      | false => rfl
      | true =>
        obtain ⟨_, _, hs2⟩ := mb2_accept_spec.mp hb
        omega

/-- Witness for C7 at a concrete accepted header: the header with checksum
completing the modular sum is accepted, and incrementing its
header-length field alone is rejected. -/
theorem C7_witness :
    mb2_accept 3897708758 0 16 397258522 = true ∧
    mb2_accept 3897708758 0 17 397258522 = false := by
  refine ⟨by decide, ?_⟩
  exact (C7_mb2_checksum_invariant.2.2 3897708758 0 16 397258522 (by decide) (by decide)
    (by decide) (by decide) (by decide) 17 (by decide)).2.2.1 (by decide)

/-- C3 counterexample: an image whose multiboot2 tag list holds an
entry-address tag but no load-address tag is accepted by
`parse_mb2header` (the claim says it is rejected). -/
theorem C3_counterexample :
    zeroContainer.laddr = none ∧
    parse_mb2header c3tags zeroContainer = some c3out ∧
    c3out.hv_entry ≠ 0 := ⟨rfl, rfl, by decide⟩

/-- C3 (amended): after a successful tag walk, `parse_mb2header` rejects
exactly when a load-address tag is present while the entry address is
still zero; when no load-address tag was seen the parse succeeds. -/
theorem C3_reject_rule : ∀ (tags : List MB2Tag) (ctr c : Container),
    parse_mb2tags ctr tags = some c →
    ((c.laddr.isSome = true ∧ c.hv_entry = 0) → parse_mb2header tags ctr = none) ∧
    (c.laddr = none → parse_mb2header tags ctr = some c) := by
  intro tags ctr c hloop
  have hred : parse_mb2header tags ctr =
      if c.laddr.isSome = true ∧ c.hv_entry = 0 then none else some c := by
    unfold parse_mb2header
    rw [hloop]
  rw [hred]
  constructor
  · intro hcond
    rw [if_pos hcond]
  · intro hnone
    rw [if_neg]
    rintro ⟨h1, _⟩
    rw [hnone] at h1
    simp at h1

/-- Witness for C3 (amended): a tag list with a load-address tag and no
entry-address tag is rejected. -/
theorem C3_witness : parse_mb2header c3wtags zeroContainer = none :=
  (C3_reject_rule c3wtags zeroContainer c3wout rfl).1 ⟨rfl, rfl⟩

/-- The parity-split fold of the module sizing scan equals the pair of
interval sums over `[2, 2+k)`. -/
theorem scanFold (lzh : List LZH) (k : Nat) :
    (List.range' 2 k).foldl
      (fun acc i =>
        if i % 2 = 0 then (acc.1 + (lzh.getD i default).Size, acc.2)
        else (acc.1, acc.2 + alignUp (lzh.getD i default).Size EFI_PAGE_SIZE))
      (0, 0) =
    (∑ i ∈ Finset.Ico 2 (2 + k), if i % 2 = 0 then (lzh.getD i default).Size else 0,
     ∑ i ∈ Finset.Ico 2 (2 + k),
       if i % 2 = 1 then alignUp (lzh.getD i default).Size EFI_PAGE_SIZE else 0) := by
  induction k with
  | zero => simp
  | succ k ih =>
    rw [List.range'_concat, List.foldl_append]
    rw [ih]
    simp only [List.foldl]
    have h2 : 2 ≤ 2 + k := by omega
    rw [show 2 + (k + 1) = (2 + k) + 1 from by omega]
    rw [Finset.sum_Ico_succ_top h2, Finset.sum_Ico_succ_top h2]
    have hsm : 2 + 1 * k = 2 + k := by omega
    rw [hsm]
    by_cases hp : (2 + k) % 2 = 0
    · have hp1 : ¬((2 + k) % 2 = 1) := by omega
      simp [hp, hp1]
    · have hp1 : (2 + k) % 2 = 1 := by omega
      simp [hp, hp1]

/-- `scanMods` computes the two parity-filtered sums over the component
indices `2 .. count - 2`. -/
theorem scanMods_eq (lzh : List LZH) (n : Nat) :
    scanMods lzh n =
      (∑ i ∈ Finset.Ico 2 (n - 1), if i % 2 = 0 then (lzh.getD i default).Size else 0,
       ∑ i ∈ Finset.Ico 2 (n - 1),
         if i % 2 = 1 then alignUp (lzh.getD i default).Size EFI_PAGE_SIZE else 0) := by
  unfold scanMods
  rcases Nat.lt_or_ge n 3 with h3 | h3
  · have hk : n - 1 - 2 = 0 := by omega
    rw [hk, scanFold]
    have he1 : Finset.Ico 2 (2 + 0) = (∅ : Finset Nat) := by simp
    have he2 : Finset.Ico 2 (n - 1) = (∅ : Finset Nat) := Finset.Ico_eq_empty (by omega)
    rw [he1, he2]
  · have hk : n - 1 - 2 = n - 3 := by omega
    have hb : 2 + (n - 3) = n - 1 := by omega
    rw [hk, scanFold, hb]

/-- C5: after a successful `container_load_modules` on a container with
`N = lzh_count` entries and zeroed accumulators, `mod_count = (N - 3) / 2`,
`total_modcmdsize` is the sum of the `Size` fields of the even-index
entries of `2 .. N - 2`, and `total_modsize` is the sum of the
page-aligned `Size` fields of the odd-index entries of that range. -/
theorem C5_module_accounting :
    ∀ (alloc : AllocReq → Option Nat) (ctr : Container) (mem : Mem)
      (c2 : Container) (mem2 : Mem),
    container_load_modules alloc ctr mem = some (.ok (c2, mem2)) →
    3 ≤ ctr.lzh_count →
    ctr.total_modcmdsize = 0 →
    ctr.total_modsize = 0 →
    c2.mod_count = (ctr.lzh_count - 3) / 2 ∧
    c2.total_modcmdsize =
      ∑ i ∈ Finset.filter (fun i => i % 2 = 0) (Finset.Ico 2 (ctr.lzh_count - 1)),
        (ctr.lzh_ptr.getD i default).Size ∧
    c2.total_modsize =
      ∑ i ∈ Finset.filter (fun i => i % 2 = 1) (Finset.Ico 2 (ctr.lzh_count - 1)),
        alignUp (ctr.lzh_ptr.getD i default).Size EFI_PAGE_SIZE := by
  intro alloc ctr mem c2 mem2 hload _h3 hz1 hz2
  unfold container_load_modules at hload
  dsimp only at hload
  split at hload
  · exact absurd hload (by simp)
  · split at hload
    · exact absurd hload (by simp)
    · simp only [Option.some.injEq, Except.ok.injEq, Prod.mk.injEq] at hload
      obtain ⟨hc, _⟩ := hload
      subst hc
      refine ⟨?_, ?_, ?_⟩
      · simp [mod_sizing]
      · simp only [mod_sizing, scanMods_eq, hz1, Finset.sum_filter]
        simp
      · simp only [mod_sizing, scanMods_eq, hz2, Finset.sum_filter]
        simp

/-- Witness for C5 on the 9-entry container: `mod_count = 3` and the two
aggregate sizes match the parity-filtered sums. -/
theorem C5_witness :
    c5ctr2.mod_count = (c5ctr.lzh_count - 3) / 2 ∧
    c5ctr2.total_modcmdsize =
      ∑ i ∈ Finset.filter (fun i => i % 2 = 0) (Finset.Ico 2 (c5ctr.lzh_count - 1)),
        (c5ctr.lzh_ptr.getD i default).Size ∧
    c5ctr2.total_modsize =
      ∑ i ∈ Finset.filter (fun i => i % 2 = 1) (Finset.Ico 2 (c5ctr.lzh_count - 1)),
        alignUp (c5ctr.lzh_ptr.getD i default).Size EFI_PAGE_SIZE :=
  C5_module_accounting c5alloc c5ctr c5mem c5ctr2 c5mem2 rfl (by decide) rfl rfl

/-- C1 (code evaluation at the failing input): on a container without a
relocatable tag, the module-region request issued by
`container_load_modules` is a fixed-address allocation at
`hv_hpa + ALIGN_UP(hv_ram_size, EFI_PAGE_SIZE)` but sized `hv_ram_size`
(4096), while the aggregate module size `total_modsize` is 12288. -/
theorem C1_fixed_module_alloc_size :
    (mod_sizing c1ctr).total_modsize = 12288 ∧
    modAllocReq (mod_sizing c1ctr) =
      some (.fixed 4096 (c1ctr.hv_hpa + alignUp 4096 EFI_PAGE_SIZE)) ∧
    (4096 : Nat) ≠ 12288 :=
  ⟨by decide, by decide, by decide⟩

/-- C10 counterexample: on a 4-entry container (`mod_count = 0`), module
index `0` satisfies `index ≥ mod_count`, yet `container_fill_module_tag`
writes the tag (its type byte becomes the module-tag type). -/
theorem C10_counterexample :
    c10ctr.mod_count = 0 ∧
    (container_fill_module_tag c10ctr c10tag 0).type = MULTIBOOT2_TAG_TYPE_MODULE ∧
    c10tag.type ≠ MULTIBOOT2_TAG_TYPE_MODULE :=
  ⟨by decide, by decide, by decide⟩

/-- The pair walk never fills the tag when no visited index matches. -/
theorem fillModLoop_no_hit (ctr : Container) (tag : MB2TagModule) (index : Nat) :
    ∀ (l : List Nat) (p : Nat), (∀ i ∈ l, i ≠ index * 2 + 2) →
      fillModLoop ctr tag index l p = tag := by
  intro l
  induction l with
  | nil => intro p _; rfl
  | cons i rest ih =>
    intro p hne
    simp only [fillModLoop]
    rw [if_neg (hne i (by simp))]
    exact ih _ (fun j hj => hne j (by simp [hj]))

/-- C10 (amended): for a container of the valid shape (odd `lzh_count`,
`mod_count = (lzh_count - 3) / 2` as set by `container_load_modules`),
any index with `index ≥ mod_count` leaves the caller's tag buffer
completely unchanged. -/
theorem C10_no_write_for_invalid_index :
    ∀ (ctr : Container) (tag : MB2TagModule) (index : Nat),
    ctr.lzh_count % 2 = 1 →
    ctr.mod_count = (ctr.lzh_count - 3) / 2 →
    ctr.mod_count ≤ index →
    container_fill_module_tag ctr tag index = tag := by
  intro ctr tag index hodd hmc hge
  unfold container_fill_module_tag
  apply fillModLoop_no_hit
  intro i hi
  rw [List.mem_range'] at hi
  obtain ⟨j, hj, rfl⟩ := hi
  omega

/-- Witness for C10 (amended): on the valid 9-entry container
(`mod_count = 3`), filling module index 3 leaves the tag untouched. -/
theorem C10_witness : container_fill_module_tag c10octr c10tag 3 = c10tag :=
  C10_no_write_for_invalid_index c10octr c10tag 3 (by decide) (by decide) (by decide)

/-- C8: for a boot command line of size `S` (terminator included) and a
non-NULL option string, with `boot_cmdsize = S + L` as computed by
`container_load_boot_image`, the tag writer copies the first `S - 1`
embedded bytes, a single space at position `S - 1`, then the `L` option
characters, and reports size `header + S + L`. -/
theorem C8_bootcmd_tag :
    ∀ (ctr : Container) (tag : MB2TagString) (f : Nat → Nat) (S L : Nat),
    ctr.options = some f →
    (ctr.lzh_ptr.getD 0 default).Size = S →
    1 ≤ S →
    ctr.boot_cmdsize = S + L →
    ((container_fill_bootcmd_tag ctr tag).size = MB2_TAG_STRING_HDR + (S + L)) ∧
    (∀ i, i < S - 1 →
      (container_fill_bootcmd_tag ctr tag).string i =
        (ctr.lzh_ptr.getD 0 default).Data i) ∧
    ((container_fill_bootcmd_tag ctr tag).string (S - 1) = 32) ∧
    (∀ j, j < L → (container_fill_bootcmd_tag ctr tag).string (S + j) = f j) := by
  intro ctr tag f S L hopt hS hS1 hcmd
  simp only [container_fill_bootcmd_tag, container_get_boot_cmdsize, hopt, hS, hcmd]
  refine ⟨by trivial, ?_, ?_, ?_⟩
  · intro i hi
    simp only [memcpy, memset]
    rw [if_neg (by omega)]
    rw [if_neg (show ¬i = S - 1 by omega)]
    rw [if_pos (by omega)]
    congr 1
    omega
  · simp only [memcpy, memset]
    rw [if_neg (by omega)]
    simp
  · intro j hj
    simp only [memcpy]
    rw [if_pos (by omega)]
    congr 1
    omega

/-- Witness for C8 with cmdline "ab\0" (S = 3) and options "qz" (L = 2):
size is header + 5, byte 0 is the embedded byte, position 2 (the old
terminator) is a space, and position 4 is the second option character. -/
theorem C8_witness :
    (container_fill_bootcmd_tag c8ctr c8tag).size = MB2_TAG_STRING_HDR + (3 + 2) ∧
    (container_fill_bootcmd_tag c8ctr c8tag).string 0 =
      (c8ctr.lzh_ptr.getD 0 default).Data 0 ∧
    (container_fill_bootcmd_tag c8ctr c8tag).string (3 - 1) = 32 ∧
    (container_fill_bootcmd_tag c8ctr c8tag).string (3 + 1) = c8opts 1 := by
  obtain ⟨h1, h2, h3, h4⟩ :=
    C8_bootcmd_tag c8ctr c8tag c8opts 3 2 rfl rfl (by decide) rfl
  exact ⟨h1, h2 0 (by decide), h3, h4 1 (by decide)⟩

/-- C2 (code evaluation at the failing input): when `container_init` fails
because the `.hv` section is missing, the aggregate record was allocated
but the error-path `container_deinit` call frees nothing (its guard is
`lzh_ptr != NULL`, which is still NULL), so the acquired resource is
leaked rather than freed exactly once. -/
theorem C2_deinit_leaks_ctr :
    (container_init c2env).1 = Except.error EfiErr.notFound ∧
    ((container_init c2env).2.count (AllocEvent.alloc Res.ctrRec) = 1 ∧
     (container_init c2env).2.count (AllocEvent.free Res.ctrRec) = 0) ∧
    ((container_init c2env).2.count (AllocEvent.free Res.lzhList) = 0 ∧
     (container_init c2env).2.count (AllocEvent.free Res.modRegion) = 0) :=
  ⟨rfl, ⟨rfl, rfl⟩, ⟨rfl, rfl⟩⟩

/-- The descriptor walk address after one step from a shifted base. -/
theorem descAddr_shift (f : Nat → CompEntry) :
    ∀ (i a : Nat), descAddr f a (i + 1) =
      descAddr f (a + COMPONENT_ENTRY_SIZE + (f a).HashSize) i := by
  intro i
  induction i with
  | zero => intro a; rfl
  | succ i ih =>
    intro a
    show descAddr f a (i + 1) + COMPONENT_ENTRY_SIZE + (f (descAddr f a (i + 1))).HashSize = _
    rw [ih a]
    rfl

/-- The index walk records exactly `n` entries. -/
theorem buildIndexAux_length (f : Nat → CompEntry) (hb doff : Nat) :
    ∀ (n a : Nat), (buildIndexAux f hb doff n a).length = n := by
  intro n
  induction n with
  | zero => intro a; rfl
  | succ n ih => intro a; simp [buildIndexAux, ih]

/-- The i-th recorded address is header base + data offset + the offset
field of the i-th descriptor reached by the hash-skipping walk. -/
theorem buildIndexAux_getD (f : Nat → CompEntry) (hb doff : Nat) :
    ∀ (i n a : Nat), i < n →
      (buildIndexAux f hb doff n a).getD i 0 =
        hb + (doff + (f (descAddr f a i)).Offset) := by
  intro i
  induction i with
  | zero =>
    intro n a hn
    cases n with
    | zero => omega
    | succ m => rfl
  | succ i ih =>
    intro n a hn
    cases n with
    | zero => omega
    | succ m =>
      show (buildIndexAux f hb doff m
          (a + COMPONENT_ENTRY_SIZE + (f a).HashSize)).getD i 0 = _
      rw [ih m _ (by omega)]
      rw [descAddr_shift]

/-- C6: a successful `container_init` on a container declaring `Count`
components produces an index list with exactly `Count` entries, entry `i`
holding the record at absolute address
`header base + DataOffset + descriptor_i.Offset`, where descriptor
addresses advance by the fixed descriptor size plus each descriptor's
`HashSize`. -/
theorem C6_index_layout :
    ∀ (env : InitEnv) (ctr : Container) (evs : List AllocEvent),
    container_init env = (.ok ctr, evs) →
    ctr.lzh_ptr = (containerIndexAddrs env).map env.lzhAt ∧
    ctr.lzh_count = (env.hdrAt (initHdrAddr env)).Count ∧
    (containerIndexAddrs env).length = (env.hdrAt (initHdrAddr env)).Count ∧
    (∀ i, i < (env.hdrAt (initHdrAddr env)).Count →
      (containerIndexAddrs env).getD i 0 =
        initHdrAddr env +
          ((env.hdrAt (initHdrAddr env)).DataOffset +
            (env.descAt
              (descAddr env.descAt (initHdrAddr env + CONTAINER_HDR_SIZE) i)).Offset)) := by
  intro env ctr evs hinit
  unfold container_init at hinit
  by_cases hca : env.ctrAllocOk = false
  · rw [if_pos hca] at hinit
    exact absurd (congrArg Prod.fst hinit) (by simp)
  · rw [if_neg hca] at hinit
    rcases hsec : env.sectionInfo with _ | ⟨sa, ss⟩
    · rw [hsec] at hinit
      exact absurd (congrArg Prod.fst hinit) (by simp)
    · rw [hsec] at hinit
      dsimp only at hinit
      by_cases hla : env.lzhAllocOk = false
      · rw [if_pos hla] at hinit
        exact absurd (congrArg Prod.fst hinit) (by simp)
      · rw [if_neg hla] at hinit
        have hctr := congrArg Prod.fst hinit
        simp only [Except.ok.injEq] at hctr
        have hha : initHdrAddr env = env.imageBase + sa := by
          unfold initHdrAddr
          rw [hsec]
          rfl
        refine ⟨?_, ?_, ?_, ?_⟩
        · rw [← hctr]
        · rw [← hctr]
          simp only [hha]
        · unfold containerIndexAddrs
          rw [buildIndexAux_length]
        · intro i hi
          unfold containerIndexAddrs
          rw [buildIndexAux_getD _ _ _ i _ _ hi]

/-- Witness for C6: in the two-component environment, index entry 1 sits at
header base + DataOffset + the second descriptor's offset field, the
second descriptor having been reached by skipping the first one's hash. -/
theorem C6_witness :
    (containerIndexAddrs c6env).getD 1 0 =
      initHdrAddr c6env +
        ((c6env.hdrAt (initHdrAddr c6env)).DataOffset +
          (c6env.descAt
            (descAddr c6env.descAt (initHdrAddr c6env + CONTAINER_HDR_SIZE) 1)).Offset) :=
  (C6_index_layout c6env c6ctr c6evs rfl).2.2.2 1 (by decide)

/-- Bytes past the 12-byte multiboot1 header of `c9buf` read as zero. -/
theorem c9buf_high (q : Nat) (hq : 12 ≤ q) : c9buf q = 0 := by
  unfold c9buf
  rw [List.getD_eq_getElem?_getD, List.getElem?_eq_none]
  · rfl
  · simp only [c9mb1bytes, List.length_cons, List.length_nil]
    omega

/-- `readU32` past the 12-byte header of `c9buf` is zero. -/
theorem c9readU32_high (p : Nat) (hp : 12 ≤ p) : readU32 c9buf p = 0 := by
  unfold readU32
  rw [c9buf_high p hp, c9buf_high (p + 1) (by omega), c9buf_high (p + 2) (by omega),
    c9buf_high (p + 3) (by omega)]

/-- The multiboot2 scanner finds nothing in `c9buf`. -/
theorem c9_no_mb2 : find_mb2header c9buf MULTIBOOT2_SEARCH = none := by
  unfold find_mb2header
  rw [List.find?_eq_none]
  intro p hp
  unfold scanPositions at hp
  rw [List.mem_range'] at hp
  obtain ⟨k, _hk, rfl⟩ := hp
  by_cases hk6 : k < 6
  · interval_cases k <;> decide
  · intro hacc
    unfold mb2_acceptAt at hacc
    obtain ⟨hm, _, _⟩ := mb2_accept_spec.mp hacc
    rw [c9readU32_high _ (by simp only [MULTIBOOT2_HEADER_ALIGN]; omega)] at hm
    exact absurd hm (by decide)

/-- The stage of `container_load_boot_image` that loads the ELF is only
well-defined (returns `some`) by dereferencing a parsed load-address tag;
its successful result keeps that tag. -/
theorem loadElfStage_ok_laddr :
    ∀ (alloc : AllocReq → Option Nat) (dp : (Nat → Nat) → List Phdr)
      (ctr : Container) (mem : Mem) (c2 : Container) (mem2 : Mem),
    loadElfStage alloc dp ctr mem = some (.ok (c2, mem2)) →
    c2.laddr.isSome = true := by
  intro alloc dp ctr mem c2 mem2 h
  unfold loadElfStage at h
  rcases hl : ctr.laddr with _ | l
  · rw [hl] at h
    exact absurd h (by simp)
  · rw [hl] at h
    dsimp only at h
    split at h
    · exact absurd h (by simp)
    · split at h
      · simp only [Option.some.injEq, Except.ok.injEq, Prod.mk.injEq] at h
        obtain ⟨hc, _⟩ := h
        rw [← hc]
        simp [hl]
      · simp only [Option.some.injEq, Except.ok.injEq, Prod.mk.injEq] at h
        obtain ⟨hc, _⟩ := h
        rw [← hc]
        simp [hl]

/-- C9: `container_load_boot_image` reads the load-address tag fields
unconditionally when loading the ELF, so (a) on any image accepted
through the multiboot1 path with no parsed load-address tag the function
hits the NULL-pointer dereference (undefined result `none`), and (b) any
well-defined successful run ends with a parsed load-address tag in the
loader state. -/
theorem C9_load_requires_laddr :
    (∀ (alloc : AllocReq → Option Nat) (dt : Nat → List MB2Tag)
       (dp : (Nat → Nat) → List Phdr) (ctr : Container) (mem : Mem),
      ctr.laddr = none →
      find_mb2header (ctr.lzh_ptr.getD 0 default).Data MULTIBOOT2_SEARCH = none →
      (find_mb1header (ctr.lzh_ptr.getD 0 default).Data MULTIBOOT_SEARCH).isSome = true →
      container_load_boot_image alloc dt dp ctr mem = none) ∧
    (∀ (alloc : AllocReq → Option Nat) (dt : Nat → List MB2Tag)
       (dp : (Nat → Nat) → List Phdr) (ctr : Container) (mem : Mem)
       (c2 : Container) (mem2 : Mem),
      container_load_boot_image alloc dt dp ctr mem = some (.ok (c2, mem2)) →
      c2.laddr.isSome = true) := by
  constructor
  · intro alloc dt dp ctr mem hladdr hno2 h1some
    unfold container_load_boot_image
    dsimp only
    rw [hno2]
    rcases h1 : find_mb1header (ctr.lzh_ptr.getD 0 default).Data MULTIBOOT_SEARCH with _ | p
    · rw [h1] at h1some
      exact absurd h1some (by simp)
    · dsimp only
      unfold parse_mb1header loadElfStage
      rw [show ({ ctr with
          boot_cmdsize := (ctr.lzh_ptr.getD 0 default).Size +
            optStrnLen ctr.options ctr.options_size,
          mb_version := 1 } : Container).laddr = ctr.laddr from rfl, hladdr]
  · intro alloc dt dp ctr mem c2 mem2 h
    unfold container_load_boot_image at h
    dsimp only at h
    split at h
    · split at h
      · exact absurd h (by simp)
      · exact loadElfStage_ok_laddr _ _ _ _ _ _ h
    · split at h
      · exact absurd h (by simp)
      · unfold parse_mb1header at h
        exact loadElfStage_ok_laddr _ _ _ _ _ _ h

/-- Witness for C9: on the concrete multiboot1-only image, loading is the
undefined NULL dereference. -/
theorem C9_witness : container_load_boot_image c9alloc c9dt c9dp c9ctr c9mem = none :=
  C9_load_requires_laddr.1 c9alloc c9dt c9dp c9ctr c9mem rfl c9_no_mb2 (by decide)

/-- `u32sub` is plain subtraction when the operands are in range. -/
theorem u32sub_eq {a b : Nat} (hle : b ≤ a) (hlt : a - b < 4294967296)
    (_hbb : b < 4294967296) : u32sub a b = a - b := by
  unfold u32sub
  omega

/-- `u32add` is plain addition when the sum is in range. -/
theorem u32add_eq {x y : Nat} (h : x + y < 4294967296) : u32add x y = x + y := by
  unfold u32add
  omega

/-- Frame property of the segment loop: bytes outside every loadable
segment's destination range are untouched. -/
theorem load_segments_frame (img : Nat → Nat) (base rs : Nat) (hrs : rs < 4294967296) :
    ∀ (l : List Phdr) (mem mem2 : Mem),
    (∀ q ∈ l, rs ≤ q.p_paddr ∧ q.p_paddr - rs + q.p_memsz < 4294967296) →
    load_segments img base rs l mem = .ok mem2 →
    ∀ a, (∀ q ∈ l, isLoadSeg q →
        ¬(base + (q.p_paddr - rs) ≤ a ∧ a < base + (q.p_paddr - rs) + q.p_memsz)) →
    mem2 a = mem a := by
  intro l
  induction l with
  | nil =>
    intro mem mem2 _ h a _
    simp only [load_segments] at h
    injection h with h2
    rw [← h2]
  | cons ph rest ih =>
    intro mem mem2 hB h a hout
    simp only [load_segments] at h
    by_cases hskip : (ph.p_type ≠ PT_LOAD ∨ ph.p_memsz = 0 ∨ ph.p_offset = 0)
    · rw [if_pos hskip] at h
      exact ih mem mem2 (fun q hq => hB q (by simp [hq])) h a
        (fun q hq hlq => hout q (by simp [hq]) hlq)
    · rw [if_neg hskip] at h
      by_cases hbad : ph.p_memsz < ph.p_filesz
      · rw [if_pos hbad] at h
        exact absurd h (by simp)
      · rw [if_neg hbad] at h
        rw [ih _ mem2 (fun q hq => hB q (by simp [hq])) h a
          (fun q hq hlq => hout q (by simp [hq]) hlq)]
        have hl : isLoadSeg ph := by
          unfold isLoadSeg
          push_neg at hskip
          exact hskip
        have hbnd := hB ph (by simp)
        have houtp := hout ph (by simp) hl
        have hsub : u32sub ph.p_paddr rs = ph.p_paddr - rs :=
          u32sub_eq hbnd.1 (by omega) hrs
        rw [hsub]
        rw [u32add_eq (show ph.p_paddr - rs + ph.p_filesz < 4294967296 by omega)]
        by_cases hz : ph.p_filesz < ph.p_memsz
        · rw [if_pos hz]
          simp only [memset, memcpy]
          split_ifs <;> first | rfl | (exfalso; omega)
        · rw [if_neg hz]
          simp only [memcpy]
          split_ifs <;> first | rfl | (exfalso; omega)

/-- A loadable segment with `p_filesz > p_memsz` anywhere in the table
makes the segment loop fail. -/
theorem load_segments_err (img : Nat → Nat) (base rs : Nat) :
    ∀ (l : List Phdr) (mem : Mem) (ph : Phdr),
    ph ∈ l → isLoadSeg ph → ph.p_memsz < ph.p_filesz →
    load_segments img base rs l mem = .error () := by
  intro l
  induction l with
  | nil =>
    intro mem ph h
    simp at h
  | cons q rest ih =>
    intro mem ph hmem hl hbad
    rcases List.mem_cons.mp hmem with heq | hmem2
    · subst heq
      simp only [load_segments]
      have hns : ¬(ph.p_type ≠ PT_LOAD ∨ ph.p_memsz = 0 ∨ ph.p_offset = 0) := by
        push_neg
        exact ⟨hl.1, hl.2.1, hl.2.2⟩
      rw [if_neg hns, if_pos hbad]
    · simp only [load_segments]
      by_cases hskip : (q.p_type ≠ PT_LOAD ∨ q.p_memsz = 0 ∨ q.p_offset = 0)
      · rw [if_pos hskip]
        exact ih mem ph hmem2 hl hbad
      · rw [if_neg hskip]
        by_cases hqbad : q.p_memsz < q.p_filesz
        · rw [if_pos hqbad]
        · rw [if_neg hqbad]
          exact ih _ ph hmem2 hl hbad

/-- Per-segment correctness of the segment loop: a loadable segment whose
destination range is not overlapped by any later loadable segment ends
with its file bytes copied and its tail zero-filled. -/
theorem load_segments_correct (img : Nat → Nat) (base rs : Nat) (hrs : rs < 4294967296) :
    ∀ (l1 : List Phdr) (ph : Phdr) (l2 : List Phdr) (mem mem2 : Mem),
    (∀ q ∈ l1 ++ ph :: l2, rs ≤ q.p_paddr ∧ q.p_paddr - rs + q.p_memsz < 4294967296) →
    load_segments img base rs (l1 ++ ph :: l2) mem = .ok mem2 →
    isLoadSeg ph →
    (∀ q ∈ l2, isLoadSeg q →
      ∀ a, base + (ph.p_paddr - rs) ≤ a → a < base + (ph.p_paddr - rs) + ph.p_memsz →
        ¬(base + (q.p_paddr - rs) ≤ a ∧ a < base + (q.p_paddr - rs) + q.p_memsz)) →
    ph.p_filesz ≤ ph.p_memsz ∧
    (∀ j, j < ph.p_filesz →
      mem2 (base + (ph.p_paddr - rs) + j) = img (ph.p_offset + j)) ∧
    (∀ j, ph.p_filesz ≤ j → j < ph.p_memsz →
      mem2 (base + (ph.p_paddr - rs) + j) = 0) := by
  intro l1
  induction l1 with
  | nil =>
    intro ph l2 mem mem2 hB h hl hdisj
    simp only [List.nil_append, load_segments] at h
    have hns : ¬(ph.p_type ≠ PT_LOAD ∨ ph.p_memsz = 0 ∨ ph.p_offset = 0) := by
      push_neg
      exact ⟨hl.1, hl.2.1, hl.2.2⟩
    rw [if_neg hns] at h
    by_cases hbad : ph.p_memsz < ph.p_filesz
    · rw [if_pos hbad] at h
      exact absurd h (by simp)
    · rw [if_neg hbad] at h
      refine ⟨by omega, ?_, ?_⟩
      · intro j hj
        have hbnd := hB ph (by simp)
        have hsub : u32sub ph.p_paddr rs = ph.p_paddr - rs :=
          u32sub_eq hbnd.1 (by omega) hrs
        have hframe := load_segments_frame img base rs hrs l2 _ mem2
          (fun q hq => hB q (by simp [hq])) h (base + (ph.p_paddr - rs) + j)
          (fun q hq hlq => hdisj q hq hlq _ (by omega) (by omega))
        rw [hframe]
        rw [hsub]
        rw [u32add_eq (show ph.p_paddr - rs + ph.p_filesz < 4294967296 by omega)]
        by_cases hz : ph.p_filesz < ph.p_memsz
        · rw [if_pos hz]
          simp only [memset, memcpy]
          rw [if_neg (by omega)]
          rw [if_pos (by omega)]
          congr 1
          omega
        · rw [if_neg hz]
          simp only [memcpy]
          rw [if_pos (by omega)]
          congr 1
          omega
      · intro j hj1 hj2
        have hbnd := hB ph (by simp)
        have hsub : u32sub ph.p_paddr rs = ph.p_paddr - rs :=
          u32sub_eq hbnd.1 (by omega) hrs
        have hframe := load_segments_frame img base rs hrs l2 _ mem2
          (fun q hq => hB q (by simp [hq])) h (base + (ph.p_paddr - rs) + j)
          (fun q hq hlq => hdisj q hq hlq _ (by omega) (by omega))
        rw [hframe]
        rw [hsub]
        rw [u32add_eq (show ph.p_paddr - rs + ph.p_filesz < 4294967296 by omega)]
        rw [if_pos (show ph.p_filesz < ph.p_memsz by omega)]
        simp only [memset]
        rw [if_pos (by omega)]
  | cons q l1rest ih =>
    intro ph l2 mem mem2 hB h hl hdisj
    simp only [List.cons_append, load_segments] at h
    by_cases hskip : (q.p_type ≠ PT_LOAD ∨ q.p_memsz = 0 ∨ q.p_offset = 0)
    · rw [if_pos hskip] at h
      exact ih ph l2 mem mem2 (fun r hr => hB r (List.mem_cons_of_mem q hr)) h hl hdisj
    · rw [if_neg hskip] at h
      by_cases hqbad : q.p_memsz < q.p_filesz
      · rw [if_pos hqbad] at h
        exact absurd h (by simp)
      · rw [if_neg hqbad] at h
        exact ih ph l2 _ mem2 (fun r hr => hB r (List.mem_cons_of_mem q hr)) h hl hdisj

/-- C4: on a successful `load_acrn_elf`, every loadable program-header
entry (`PT_LOAD`, non-zero memsz, non-zero offset) whose destination range
no later loadable entry overlaps has its first `p_filesz` destination
bytes equal to the file bytes at its offset and bytes
`[p_filesz, p_memsz)` zero, at destination
`base + (p_paddr - hv_ram_start)`; and a loadable entry with
`p_filesz > p_memsz` makes `load_acrn_elf` fail with the load error once
the allocation itself succeeds. -/
theorem C4_elf_segment_loading :
    (∀ (alloc : AllocReq → Option Nat) (img : Nat → Nat) (phdrs : List Phdr)
       (rs rsz : Nat) (reloc : Option RelocInfo) (mem : Mem) (base : Nat) (mem2 : Mem),
      load_acrn_elf alloc img phdrs rs rsz reloc mem = .ok (base, mem2) →
      rs < 4294967296 →
      (∀ q ∈ phdrs, rs ≤ q.p_paddr ∧ q.p_paddr - rs + q.p_memsz < 4294967296) →
      ∀ (l1 : List Phdr) (ph : Phdr) (l2 : List Phdr), phdrs = l1 ++ ph :: l2 →
      isLoadSeg ph →
      (∀ q ∈ l2, isLoadSeg q →
        ∀ a, base + (ph.p_paddr - rs) ≤ a → a < base + (ph.p_paddr - rs) + ph.p_memsz →
          ¬(base + (q.p_paddr - rs) ≤ a ∧ a < base + (q.p_paddr - rs) + q.p_memsz)) →
      ph.p_filesz ≤ ph.p_memsz ∧
      (∀ j, j < ph.p_filesz →
        mem2 (base + (ph.p_paddr - rs) + j) = img (ph.p_offset + j)) ∧
      (∀ j, ph.p_filesz ≤ j → j < ph.p_memsz →
        mem2 (base + (ph.p_paddr - rs) + j) = 0)) ∧
    (∀ (alloc : AllocReq → Option Nat) (img : Nat → Nat) (phdrs : List Phdr)
       (rs rsz : Nat) (reloc : Option RelocInfo) (mem : Mem) (ph : Phdr),
      (alloc (elfAllocReq rsz rs reloc)).isSome = true →
      ph ∈ phdrs → isLoadSeg ph → ph.p_memsz < ph.p_filesz →
      load_acrn_elf alloc img phdrs rs rsz reloc mem = .error EfiErr.loadError) := by
  constructor
  · intro alloc img phdrs rs rsz reloc mem base mem2 h hrs hB l1 ph l2 hsplit hl hdisj
    unfold load_acrn_elf at h
    rcases halloc : alloc (elfAllocReq rsz rs reloc) with _ | b
    · rw [halloc] at h
      exact absurd h (by simp)
    · rw [halloc] at h
      dsimp only at h
      rcases hseg : load_segments img b rs phdrs mem with u | m2
      · rw [hseg] at h
        exact absurd h (by simp)
      · rw [hseg] at h
        simp only [Except.ok.injEq, Prod.mk.injEq] at h
        obtain ⟨hb, hm⟩ := h
        subst hb
        subst hm
        subst hsplit
        exact load_segments_correct img b rs hrs l1 ph l2 mem m2 hB hseg hl hdisj
  · intro alloc img phdrs rs rsz reloc mem ph hsome hmem hl hbad
    unfold load_acrn_elf
    rcases halloc : alloc (elfAllocReq rsz rs reloc) with _ | b
    · rw [halloc] at hsome
      exact absurd hsome (by simp)
    · dsimp only
      rw [load_segments_err img b rs phdrs mem ph hmem hl hbad]

/-- Witness for C4: loading the single 3-file-byte / 5-memory-byte segment
copies byte 1 from the file offset and zeroes byte 4. -/
theorem C4_witness :
    c4ph.p_filesz ≤ c4ph.p_memsz ∧
    c4mem2 (4096 + (c4ph.p_paddr - 4096) + 1) = c4img (c4ph.p_offset + 1) ∧
    c4mem2 (4096 + (c4ph.p_paddr - 4096) + 4) = 0 := by
  obtain ⟨h1, h2, h3⟩ :=
    C4_elf_segment_loading.1 c4alloc c4img [c4ph] 4096 8192 none c4mem0 4096 c4mem2
      rfl (by decide) (by decide) [] c4ph [] rfl (by decide) (by simp)
  exact ⟨h1, h2 1 (by decide), h3 4 (by decide) (by decide)⟩
